import Mathlib

/-!
# Verification of the document extraction and normalization pipeline

Shallow embedding of the extraction pipeline implemented in
`wizardкостыль.py`, together with proofs settling the specification
claims about it.  Python functions are translated into total Lean
functions; Python `None` becomes `Option.none`; Python exceptions that
a function catches internally are represented by the explicit failure
values the code stores; machine behaviour of external libraries
(the XML library, the PDF engines, the network) is represented by
explicit input data the embedded functions consume.
-/

set_option maxRecDepth 4096

/-! ## Basic string machinery shared by the embedded functions -/

/-- The whitespace characters stripped by Python's `str.strip()` and matched
by `\s` (restricted to the ASCII whitespace that occurs in the pipeline's
inputs). -/
def isPyWs (c : Char) : Bool :=
  c = ' ' || c = '\t' || c = '\n' || c = '\r' || c = '\x0b' || c = '\x0c'

/-- Strip every leading and trailing character satisfying `p`
(the behaviour of Python's `str.strip` family). -/
def stripChars (p : Char → Bool) (l : List Char) : List Char :=
  ((l.dropWhile p).reverse.dropWhile p).reverse

/-- Python `str.strip()` on a character list. -/
def pyStrip (l : List Char) : List Char := stripChars isPyWs l

/-- Python `str.strip()` on a `String`. -/
def pyStripStr (s : String) : String := String.mk (pyStrip s.data)

/-- `leadsWith pat l` is true when `pat` is an initial segment of `l`. -/
def leadsWith : List Char → List Char → Bool
  | [], _ => true
  | _ :: _, [] => false
  | a :: s, b :: l => a == b && leadsWith s l

/-- Index of the first occurrence of `pat` inside `l`
(the position Python's `str.find`/`in` locate). -/
def findSub (pat : List Char) : List Char → Option Nat
  | [] => if leadsWith pat [] then some 0 else none
  | c :: rest =>
    if leadsWith pat (c :: rest) then some 0
    else (findSub pat rest).map (· + 1)

/-- Python `pat in s` membership test. -/
def strContains (s pat : String) : Bool := (findSub pat.data s.data).isSome

/-- Everything after the first occurrence of `pat` (identity when absent). -/
def afterFirst (pat l : List Char) : List Char :=
  match findSub pat l with
  | some i => l.drop (i + pat.length)
  | none => l

/-- Everything before the first occurrence of `pat`; this is Python's
`s.split(pat)[0]` (the whole string when `pat` is absent). -/
def beforeFirst (pat l : List Char) : List Char :=
  match findSub pat l with
  | some i => l.take i
  | none => l

/-- Python's `s.split(pat)[1]`: the segment between the first occurrence of
`pat` and the following one (to the end when there is no second occurrence).
Faithful whenever `pat` occurs in `l` at least once, which is how the code
uses it. -/
def splitGet1 (pat l : List Char) : List Char :=
  beforeFirst pat (afterFirst pat l)

/-- Numeric value of a list of decimal digits. -/
def digitsVal (l : List Char) : Nat :=
  l.foldl (fun a c => a * 10 + (c.toNat - 48)) 0

/-! ## The Numeric Normalizer: `_clean_number` -/

/-- The value classes a Python numeric parse can produce: `int` or `float`
(floats carried exactly as rationals). -/
inductive PyNum
  | int : Int → PyNum
  | float : Rat → PyNum
deriving DecidableEq, Repr

/-- Python `int(s)` on the residual string `_clean_number` builds: the
residual contains no whitespace, `+`, or underscore, so `int` succeeds
exactly on an optional leading minus followed by one or more digits. -/
def pyIntOfClean (l : List Char) : Option Int :=
  match l with
  | '-' :: r => if r ≠ [] ∧ r.all Char.isDigit then some (-(digitsVal r : Int)) else none
  | _ => if l ≠ [] ∧ l.all Char.isDigit then some (digitsVal l : Int) else none

/-- Split at the first `.`, requiring that no further `.` follows. -/
def splitDot (l : List Char) : Option (List Char × List Char) :=
  let p := l.takeWhile (fun c => c ≠ '.')
  match l.dropWhile (fun c => c ≠ '.') with
  | '.' :: q => if '.' ∈ q then none else some (p, q)
  | _ => none

/-- Python `float(s)` on the residual string (which can only hold digits,
`-`, `,` and `.`): it fails on commas, a misplaced sign, several dots or a
bare dot, and otherwise reads `intpart.fracpart`. -/
def pyFloatOfClean (l : List Char) : Option Rat :=
  if ',' ∈ l then none
  else
    let sgn : Bool := l.head? = some '-'
    let m := if sgn then l.drop 1 else l
    if '-' ∈ m then none
    else
      match splitDot m with
      | none => none
      | some (p, q) =>
        if p.all Char.isDigit ∧ q.all Char.isDigit ∧ ¬(p = [] ∧ q = []) then
          let v : Rat := mkRat (digitsVal p * 10 ^ q.length + digitsVal q : Nat) (10 ^ q.length)
          some (if sgn then -v else v)
        else none

/-- `re.match(r'^\(.*\)$', s)`: the whole token is parenthesised and the
interior holds no newline (`.` does not match `\n`). -/
def parenWrapped (l : List Char) : Bool :=
  match l with
  | '(' :: rest =>
    rest ≠ [] && rest.getLast? = some ')' && !(('\n' : Char) ∈ rest.dropLast)
  | _ => false

/-- `_clean_number`: converts Russian/European numeric tokens to a signed
int/float, treating a fully parenthesised token as negative; every failure
is the `none` result (the code catches all exceptions). -/
def _clean_number (s : String) : Option PyNum :=
  if s = "" then none
  else
    let l := s.data.map (fun c => if c = '\xa0' || c = '\u2009' then ' ' else c)
    let l := pyStrip l
    let neg := parenWrapped l
    let l := if neg then stripChars (fun c => c = '(' || c = ')') l else l
    let l := l.filter (fun c => c.isDigit || c = '-' || c = ',' || c = '.' || c = ' ')
    let l := l.filter (fun c => c ≠ ' ')
    let l := if (',' ∈ l) ∧ ¬('.' ∈ l) then l.map (fun c => if c = ',' then '.' else c) else l
    if l = [] then none
    else if '.' ∈ l then
      (pyFloatOfClean l).map (fun v => PyNum.float (if neg then -v else v))
    else
      (pyIntOfClean l).map (fun v => PyNum.int (if neg then -v else v))

/-! ## `normalize_inn` -/

/-- Python `str.zfill(w)`: left-pad with `'0'` to width `w`, keeping a
leading sign in front of the padding. -/
def zfill (s : String) (w : Nat) : String :=
  if s.length ≥ w then s
  else
    match s.data with
    | c :: rest =>
      if c = '+' ∨ c = '-' then String.mk (c :: (List.replicate (w - s.length) '0' ++ rest))
      else String.mk (List.replicate (w - s.length) '0' ++ s.data)
    | [] => String.mk (List.replicate w '0')

/-- `normalize_inn` as written in the source: strip, pad short ids to 10,
pad 11-character ids to 12, otherwise return unchanged. -/
def normalize_inn (inn : String) : String :=
  let t := pyStripStr inn
  if t.length < 10 then zfill t 10
  else if t.length < 12 ∧ t.length > 10 then zfill t 12
  else t

/-- The claim's description of `normalize_inn` in its own words, for
comparison with the source definition. -/
def normalize_inn_claim (inn : String) : String :=
  let t := pyStripStr inn
  if t.length < 10 then zfill t 10
  else if t.length = 11 then zfill t 12
  else t

/-! ## Lemmas about stripping -/

theorem stripChars_eq_rdrop (p : Char → Bool) (l : List Char) :
    stripChars p l = (l.dropWhile p).rdropWhile p := rfl

theorem string_mk_data (l : List Char) : (String.mk l).data = l := rfl

theorem string_mk_length (l : List Char) : (String.mk l).length = l.length := rfl

theorem string_eta (s : String) : String.mk s.data = s := by cases s; rfl

theorem stripChars_head?_not (p : Char → Bool) (l : List Char) (c : Char)
    (h : (stripChars p l).head? = some c) : p c = false := by
  obtain ⟨t, ht⟩ := List.rdropWhile_prefix p (l.dropWhile p)
  rw [stripChars_eq_rdrop] at h
  cases hX : List.rdropWhile p (l.dropWhile p) with
  | nil => rw [hX] at h; exact Option.noConfusion h
  | cons b bs =>
    rw [hX] at h ht
    have hb : b = c := by simpa using h
    have hY : l.dropWhile p = b :: (bs ++ t) := by rw [← ht]; rfl
    have hne : l.dropWhile p ≠ [] := by rw [hY]; exact List.cons_ne_nil _ _
    have hnp := List.head_dropWhile_not p l hne
    have h2 : (l.dropWhile p).head? = some ((l.dropWhile p).head hne) :=
      List.head?_eq_head hne
    have h3 : (l.dropWhile p).head? = some b := by rw [hY]; rfl
    have h4 : (l.dropWhile p).head hne = b := by
      rw [h2] at h3; exact Option.some.inj h3
    rw [← hb, ← h4]
    exact hnp

theorem stripChars_getLast_not (p : Char → Bool) (l : List Char) (c : Char)
    (h : (stripChars p l).getLast? = some c) : p c = false := by
  have hne : stripChars p l ≠ [] := by
    intro he; rw [he] at h; exact Option.noConfusion h
  have hne2 : (l.dropWhile p).rdropWhile p ≠ [] := hne
  have hnp := List.rdropWhile_last_not p (l.dropWhile p) hne2
  have h2 : (stripChars p l).getLast? = some ((stripChars p l).getLast hne) :=
    List.getLast?_eq_getLast_of_ne_nil hne
  have h3 : (stripChars p l).getLast hne = c := by
    rw [h2] at h; exact Option.some.inj h
  have h4 : ((l.dropWhile p).rdropWhile p).getLast hne2 = c := h3
  rw [h4] at hnp
  simpa using hnp

theorem dropWhile_stripChars (p : Char → Bool) (l : List Char) :
    (stripChars p l).dropWhile p = stripChars p l := by
  cases hX : stripChars p l with
  | nil => rfl
  | cons b bs =>
    have hpb : p b = false := stripChars_head?_not p l b (by rw [hX]; rfl)
    rw [List.dropWhile_cons, hpb]
    simp

theorem rdropWhile_stripChars (p : Char → Bool) (l : List Char) :
    (stripChars p l).rdropWhile p = stripChars p l := by
  rw [stripChars_eq_rdrop]
  exact List.rdropWhile_idempotent p (l.dropWhile p)

theorem stripChars_idem (p : Char → Bool) (l : List Char) :
    stripChars p (stripChars p l) = stripChars p l := by
  rw [stripChars_eq_rdrop (l := stripChars p l), dropWhile_stripChars,
    rdropWhile_stripChars]

theorem stripChars_eq_self_of (p : Char → Bool) (l : List Char)
    (h1 : ∀ c, l.head? = some c → p c = false)
    (h2 : ∀ c, l.getLast? = some c → p c = false) : stripChars p l = l := by
  have hd : l.dropWhile p = l := by
    cases l with
    | nil => rfl
    | cons a as => rw [List.dropWhile_cons]; simp [h1 a rfl]
  rw [stripChars_eq_rdrop, hd, List.rdropWhile_eq_self_iff]
  intro hl
  have := h2 (l.getLast hl) (List.getLast?_eq_getLast_of_ne_nil hl)
  simp [this]

theorem pyStrip_idem (l : List Char) : pyStrip (pyStrip l) = pyStrip l :=
  stripChars_idem _ _

theorem pyStripStr_idem (s : String) : pyStripStr (pyStripStr s) = pyStripStr s := by
  simp only [pyStripStr, string_mk_data]
  rw [pyStrip_idem]

theorem pyStripStr_eq_self_of (s : String)
    (h1 : ∀ c, s.data.head? = some c → isPyWs c = false)
    (h2 : ∀ c, s.data.getLast? = some c → isPyWs c = false) : pyStripStr s = s := by
  have h := stripChars_eq_self_of isPyWs s.data h1 h2
  show String.mk (pyStrip s.data) = s
  rw [show pyStrip s.data = stripChars isPyWs s.data from rfl, h, string_eta]

/-! ## Lemmas about `zfill` and `normalize_inn` -/

theorem zfill_length (s : String) (w : Nat) : (zfill s w).length = max s.length w := by
  have hsl : s.length = s.data.length := rfl
  unfold zfill
  split
  · omega
  · rename_i h
    split
    · rename_i c rest heq
      split
      · simp only [string_mk_length, List.length_cons, List.length_append,
          List.length_replicate]
        rw [heq] at hsl
        simp only [List.length_cons] at hsl
        omega
      · simp only [string_mk_length, List.length_append, List.length_replicate]
        omega
    · rename_i heq
      simp only [string_mk_length, List.length_replicate]
      rw [heq] at hsl
      simp only [List.length_nil] at hsl
      omega

theorem getLast_replicate_zero (n : Nat) (h : 0 < n) :
    (List.replicate n '0').getLast? = some '0' := by
  cases n with
  | zero => omega
  | succ m =>
    rw [List.replicate_succ']
    exact List.getLast?_concat _

theorem zfill_head_cases (s : String) (w : Nat) (c : Char)
    (h : (zfill s w).data.head? = some c) :
    c = '0' ∨ c = '+' ∨ c = '-' ∨ s.data.head? = some c := by
  unfold zfill at h
  split at h
  · exact Or.inr (Or.inr (Or.inr h))
  · rename_i hw
    split at h
    · rename_i c0 rest heq
      split at h
      · rename_i hc0
        have h2 : (c0 :: (List.replicate (w - s.length) '0' ++ rest)).head? = some c := h
        simp only [List.head?] at h2
        rcases hc0 with hc0 | hc0
        · exact Or.inr (Or.inl (by rw [← Option.some.inj h2, hc0]))
        · exact Or.inr (Or.inr (Or.inl (by rw [← Option.some.inj h2, hc0])))
      · have h2 : (List.replicate (w - s.length) '0' ++ s.data).head? = some c := h
        cases hn : w - s.length with
        | zero =>
          rw [hn, List.replicate_zero, List.nil_append] at h2
          exact Or.inr (Or.inr (Or.inr h2))
        | succ m =>
          rw [hn, List.replicate_succ, List.cons_append] at h2
          simp only [List.head?] at h2
          exact Or.inl (Option.some.inj h2).symm
    · rename_i heq
      have h2 : (List.replicate w '0').head? = some c := h
      cases hw0 : w with
      | zero =>
        rw [hw0, List.replicate_zero] at h2
        exact Option.noConfusion h2
      | succ m =>
        rw [hw0, List.replicate_succ] at h2
        simp only [List.head?] at h2
        exact Or.inl (Option.some.inj h2).symm

theorem zfill_last_cases (s : String) (w : Nat) (c : Char)
    (h : (zfill s w).data.getLast? = some c) :
    c = '0' ∨ s.data.getLast? = some c := by
  unfold zfill at h
  split at h
  · exact Or.inr h
  · rename_i hw
    split at h
    · rename_i c0 rest heq
      split at h
      · have h2 : (c0 :: (List.replicate (w - s.length) '0' ++ rest)).getLast? = some c := h
        cases hrest : rest with
        | nil =>
          rw [hrest, List.append_nil] at h2
          cases hn : w - s.length with
          | zero =>
            rw [hn, List.replicate_zero] at h2
            rw [heq, hrest]
            exact Or.inr (by simpa using h2)
          | succ m =>
            rw [hn] at h2
            rw [show (c0 :: List.replicate (m + 1) '0') =
              [c0] ++ List.replicate (m + 1) '0' by simp] at h2
            rw [List.getLast?_append_of_ne_nil _ (by simp [List.replicate_succ])] at h2
            rw [getLast_replicate_zero (m + 1) (Nat.succ_pos m)] at h2
            exact Or.inl (Option.some.inj h2).symm
        | cons r rs =>
          rw [show (c0 :: (List.replicate (w - s.length) '0' ++ rest)) =
            ([c0] ++ List.replicate (w - s.length) '0') ++ rest by simp] at h2
          rw [List.getLast?_append_of_ne_nil _ (by rw [hrest]; exact List.cons_ne_nil r rs)] at h2
          rw [heq]
          rw [show (c0 :: rest) = [c0] ++ rest by simp]
          rw [List.getLast?_append_of_ne_nil _ (by rw [hrest]; exact List.cons_ne_nil r rs)]
          exact Or.inr h2
      · have h2 : (List.replicate (w - s.length) '0' ++ s.data).getLast? = some c := h
        rename_i heq2
        have hne : s.data ≠ [] := by rw [heq]; exact List.cons_ne_nil c0 rest
        rw [List.getLast?_append_of_ne_nil _ hne] at h2
        exact Or.inr h2
    · rename_i heq
      have h2 : (List.replicate w '0').getLast? = some c := h
      cases hw0 : w with
      | zero =>
        rw [hw0, List.replicate_zero] at h2
        exact Option.noConfusion h2
      | succ m =>
        rw [hw0, getLast_replicate_zero (m + 1) (Nat.succ_pos m)] at h2
        exact Or.inl (Option.some.inj h2).symm

theorem pyStripStr_zfill (s : String) (w : Nat) :
    pyStripStr (zfill (pyStripStr s) w) = zfill (pyStripStr s) w := by
  apply pyStripStr_eq_self_of
  · intro c hc
    rcases zfill_head_cases (pyStripStr s) w c hc with h | h | h | h
    · rw [h]; decide
    · rw [h]; decide
    · rw [h]; decide
    · exact stripChars_head?_not isPyWs s.data c h
  · intro c hc
    rcases zfill_last_cases (pyStripStr s) w c hc with h | h
    · rw [h]; decide
    · exact stripChars_getLast_not isPyWs s.data c h

theorem normalize_inn_stripped (s : String) :
    pyStripStr (normalize_inn s) = normalize_inn s := by
  unfold normalize_inn
  by_cases h1 : (pyStripStr s).length < 10
  · simp only [if_pos h1]; exact pyStripStr_zfill s 10
  · simp only [if_neg h1]
    by_cases h2 : (pyStripStr s).length < 12 ∧ (pyStripStr s).length > 10
    · simp only [if_pos h2]; exact pyStripStr_zfill s 12
    · simp only [if_neg h2]; exact pyStripStr_idem s

theorem normalize_inn_length (s : String) :
    ¬((normalize_inn s).length < 10) ∧
    ¬((normalize_inn s).length < 12 ∧ (normalize_inn s).length > 10) := by
  unfold normalize_inn
  by_cases h1 : (pyStripStr s).length < 10
  · simp only [if_pos h1, zfill_length]; omega
  · simp only [if_neg h1]
    by_cases h2 : (pyStripStr s).length < 12 ∧ (pyStripStr s).length > 10
    · simp only [if_pos h2, zfill_length]; omega
    · simp only [if_neg h2]; omega

/-- **C10**: `normalize_inn` first strips surrounding whitespace; a stripped
string shorter than 10 characters is left-padded with zeros to length 10, an
exactly-11-character one is left-padded to length 12, and anything else
(length 10, 12, or more than 12) is returned unchanged; consequently
`normalize_inn` is idempotent. -/
theorem normalize_inn_behavior (s : String) :
    normalize_inn s = normalize_inn_claim s ∧
    normalize_inn (normalize_inn s) = normalize_inn s := by
  constructor
  · unfold normalize_inn normalize_inn_claim
    have h : ((pyStripStr s).length < 12 ∧ (pyStripStr s).length > 10) ↔
        (pyStripStr s).length = 11 := by omega
    simp only [h]
  · have hstep : normalize_inn (normalize_inn s) =
        (if (pyStripStr (normalize_inn s)).length < 10 then
          zfill (pyStripStr (normalize_inn s)) 10
        else if (pyStripStr (normalize_inn s)).length < 12 ∧
            (pyStripStr (normalize_inn s)).length > 10 then
          zfill (pyStripStr (normalize_inn s)) 12
        else pyStripStr (normalize_inn s)) := rfl
    rw [hstep, normalize_inn_stripped s]
    obtain ⟨hA, hB⟩ := normalize_inn_length s
    rw [if_neg hA, if_neg hB]

/-- Witness for `normalize_inn_behavior` at a concrete input. -/
theorem normalize_inn_behavior_witness :
    normalize_inn " 123 " = normalize_inn_claim " 123 " ∧
    normalize_inn (normalize_inn " 123 ") = normalize_inn " 123 " :=
  normalize_inn_behavior " 123 "

/-- **C5**: the Numeric Normalizer `_clean_number` is total on strings — it
is a function into `Option PyNum`, so every input yields a signed number or
`none`, and the source catches every parse exception, never raising — and it
takes the specified values: `"(1 234,5)" ↦ -1234.5`, `"" ↦ none`,
`"abc" ↦ none`. -/
theorem clean_number_values :
    _clean_number "(1 234,5)" = some (PyNum.float (-1234.5 : Rat)) ∧
    _clean_number "" = none ∧
    _clean_number "abc" = none := by
  have hval : (-1234.5 : Rat) = -(mkRat 12345 10) := by
    rw [Rat.mkRat_eq_div]
    norm_num
  refine ⟨?_, rfl, by decide⟩
  rw [hval]
  decide

/-! ## The Structured-Schema Extractor: `parse_accounting_xml`

The XML library is external; a parsed registry accounting document is
represented by the nodes and attributes `parse_accounting_xml` reads.
Attribute lookups (`Element.get`) yield `Option String`; a missing node is
`none`.  A file whose bytes fail to decode as windows-1251 or to parse as
XML raises inside the `try`, which the code turns into
`success=false` plus the error string — represented by `XmlInput.parseError`. -/

/-- A current / prior-year / prior-2-years attribute triple
(`СумОтч` / `СумПрдШв` / `СумПрдЩ`), each possibly absent. -/
structure Triple where
  current : Option String
  prevYear : Option String
  prev2Years : Option String
deriving DecidableEq, Repr

/-- The `Актив` element: its own total triple and the optional named
sub-items the parser reads. -/
structure ActiveBlock where
  total : Triple
  nonCurrentAssets : Option Triple
  financialInvestments : Option Triple
  inventory : Option Triple
  cash : Option Triple
  intangibleAssets : Option Triple
deriving DecidableEq, Repr

/-- The `Пассив` element. -/
structure PassiveBlock where
  total : Triple
  equity : Option Triple
  longTermDebt : Option Triple
  otherLongTermLiab : Option Triple
  accountsPayable : Option Triple
deriving DecidableEq, Repr

/-- The `Баланс` element. -/
structure BalansBlock where
  active : Option ActiveBlock
  passive : Option PassiveBlock
deriving DecidableEq, Repr

/-- A current / previous attribute pair (`СумОтч` / `СумПред`). -/
structure Pair where
  current : Option String
  previous : Option String
deriving DecidableEq, Repr

/-- The `ФинРез` element with the six line items the parser reads. -/
structure FinRezBlock where
  revenue : Option Pair
  expenses : Option Pair
  otherIncome : Option Pair
  otherExpenses : Option Pair
  incomeTax : Option Pair
  netProfit : Option Pair
deriving DecidableEq, Repr

/-- The `Документ` element (fields not read by any claim under
verification — company info, signatory, form code — are omitted). -/
structure Dokument where
  otchetGod : Option String
  balans : Option BalansBlock
  finRez : Option FinRezBlock
deriving DecidableEq, Repr

/-- Input to `parse_accounting_xml`: either the file failed to decode/parse
(the `except` branch) or it parsed, with `root.find('.//Документ')`
yielding an optional `Документ`. -/
inductive XmlInput
  | parseError (msg : String)
  | parsed (doc : Option Dokument)
deriving DecidableEq, Repr

/-- A cell of `multi_year_data`: the code stores either Python `None`, a
number produced by the Numeric Normalizer, or a raw (unparsed) string. -/
inductive CellVal
  | null
  | num (n : PyNum)
  | str (s : String)
deriving DecidableEq, Repr

/-- `years` entries can be `None` on the heuristic path, so they are
optional strings; `balance` and `financial_results` are insertion-ordered
mappings from line-item label to the cell sequence. -/
structure MultiYearData where
  years : List (Option String)
  balance : List (String × List CellVal)
  financial_results : List (String × List CellVal)
deriving DecidableEq, Repr

/-- The fields of `parse_accounting_xml`'s result dict that the claims
inspect; `multi_year_data := none` models the key being absent. -/
structure XmlResult where
  success : Bool
  report_year : Option String
  multi_year_data : Option MultiYearData
  error : Option String
deriving DecidableEq, Repr

/-- A raw attribute value as stored into a `multi_year_data` cell: the
code writes the string (or `None`) without passing it through
`_clean_number`. -/
def cellS : Option String → CellVal
  | some s => CellVal.str s
  | none => CellVal.null

/-- Python `int(s)` on an arbitrary string (used on the `ОтчетГод` label):
surrounding whitespace is ignored, an optional single sign precedes the
digits, and single underscores may separate digit groups. -/
def pyIntOfString (s : String) : Option Int :=
  let l := pyStrip s.data
  match l with
  | '+' :: r => (pyDigitsU r).map (fun n => (n : Int))
  | '-' :: r => (pyDigitsU r).map (fun n => -(n : Int))
  | r => (pyDigitsU r).map (fun n => (n : Int))
where
  /-- digits with single interior underscores, as Python's int literal body -/
  pyDigitsU : List Char → Option Nat
  | [] => none
  | c :: rest => if c.isDigit then go (c.toNat - 48) rest else none
  go : Nat → List Char → Option Nat
  | acc, [] => some acc
  | acc, '_' :: d :: r => if d.isDigit then go (acc * 10 + (d.toNat - 48)) r else none
  | _, '_' :: [] => none
  | acc, d :: r => if d.isDigit then go (acc * 10 + (d.toNat - 48)) r else none

/-- The `years` list of `parse_accounting_xml`: the code guards the
computation with `if result["report_year"]:`, a Python truthiness test, so
an absent *or empty* year label leaves `years` empty; otherwise the three
labels are derived by decrementing `int(report_year)`, with the raw label
plus two `"N/A"` placeholders when `int` fails. -/
def yearsOf (ry : Option String) : List (Option String) :=
  match ry with
  | none => []
  | some y =>
    if y = "" then []
    else
      match pyIntOfString y with
      | some n => [some (toString n), some (toString (n - 1)), some (toString (n - 2))]
      | none => [some y, some "N/A", some "N/A"]

/-- The three cells of a balance row. -/
def tripleCells (t : Triple) : List CellVal :=
  [cellS t.current, cellS t.prevYear, cellS t.prev2Years]

/-- One optional balance detail row. -/
def triRowList (label : String) (t : Option Triple) : List (String × List CellVal) :=
  match t with
  | none => []
  | some tr => [(label, tripleCells tr)]

/-- Rows contributed by the `Актив` side, in the code's insertion order. -/
def activeRows : Option ActiveBlock → List (String × List CellVal)
  | none => []
  | some a =>
    ("АКТИВ (всего)", tripleCells a.total) ::
      (triRowList "Внеоборотные активы" a.nonCurrentAssets ++
        (triRowList "Финансовые вложения" a.financialInvestments ++
          (triRowList "Запасы" a.inventory ++
            (triRowList "Денежные средства" a.cash ++
              triRowList "Нематериальные активы" a.intangibleAssets))))

/-- Rows contributed by the `Пассив` side. -/
def passiveRows : Option PassiveBlock → List (String × List CellVal)
  | none => []
  | some p =>
    ("ПАССИВ (всего)", tripleCells p.total) ::
      (triRowList "Капитал и резервы" p.equity ++
        (triRowList "Долгосрочные заемные средства" p.longTermDebt ++
          (triRowList "Другие долгосрочные обязательства" p.otherLongTermLiab ++
            triRowList "Кредиторская задолженность" p.accountsPayable)))

/-- The `balance` part of `multi_year_data`. -/
def balanceRows : Option BalansBlock → List (String × List CellVal)
  | none => []
  | some b => activeRows b.active ++ passiveRows b.passive

/-- The two cells of a financial-results row. -/
def pairCells (p : Pair) : List CellVal :=
  [cellS p.current, cellS p.previous]

/-- One optional financial-results row. -/
def pairRowList (label : String) (p : Option Pair) : List (String × List CellVal) :=
  match p with
  | none => []
  | some pr => [(label, pairCells pr)]

/-- The `financial_results` part of `multi_year_data`, in insertion order.
The code computes a `fin_years` prefix of `years` here but never uses it:
each row keeps exactly the 2 cells `current`/`previous`. -/
def finRows : Option FinRezBlock → List (String × List CellVal)
  | none => []
  | some f =>
    pairRowList "Выручка" f.revenue ++
      (pairRowList "Расходы по обычной деятельности" f.expenses ++
        (pairRowList "Прочие доходы" f.otherIncome ++
          (pairRowList "Прочие расходы" f.otherExpenses ++
            (pairRowList "Налог на прибыль" f.incomeTax ++
              pairRowList "Чистая прибыль (убыток)" f.netProfit))))

/-- `parse_accounting_xml`: on a parse/decode exception the result keeps
`success=false` with the error and no `multi_year_data`; otherwise every
block that is present contributes its rows, and `success` is set to `True`
unconditionally at the end of the `try` block. -/
def parse_accounting_xml : XmlInput → XmlResult
  | XmlInput.parseError e =>
    { success := false, report_year := none, multi_year_data := none, error := some e }
  | XmlInput.parsed none =>
    { success := true, report_year := none,
      multi_year_data := some ⟨[], [], []⟩, error := none }
  | XmlInput.parsed (some d) =>
    { success := true
      report_year := d.otchetGod
      multi_year_data := some ⟨yearsOf d.otchetGod, balanceRows d.balans, finRows d.finRez⟩
      error := none }

/-! ## The Heuristic Pattern Extractor's output and the transcript-path
`multi_year_data` builder (first `extract_from_pdf` definition, the
merge step after `parse_accounting_from_text`) -/

/-- Python truthiness of a stored numeric value (`None`, `0` and `0.0` are
falsy). -/
def pyTruthy : Option PyNum → Bool
  | none => false
  | some (PyNum.int n) => n ≠ 0
  | some (PyNum.float q) => q ≠ 0

/-- One side (`active`/`passive`) of the balance dict built by
`parse_accounting_from_text`: `total_current` is present only when the
totals pattern matched (its value is a `_clean_number` output, possibly
`None`); `details` holds the matched labelled patterns, each value a
`_clean_number` output.  The code only stores a `details` key for a
non-empty dict, and the builder treats an absent and an empty dict the
same way, so `details` is the (possibly empty) association list. -/
structure TextSide where
  total_current : Option (Option PyNum)
  details : List (String × Option PyNum)
deriving DecidableEq, Repr

/-- The `balance` dict of the text parser: each side's key exists only when
something was stored under it. -/
structure TextBalance where
  active : Option TextSide
  passive : Option TextSide
deriving DecidableEq, Repr

/-- The `financial_results` dict of the text parser: each key present when
its pattern matched, holding `{"current": _clean_number(...)}`. -/
structure TextFinRes where
  revenue : Option (Option PyNum)
  net_profit : Option (Option PyNum)
  income_tax : Option (Option PyNum)
  expenses : Option (Option PyNum)
deriving DecidableEq, Repr

/-- The fields of `parse_accounting_from_text`'s result consumed by the
`multi_year_data` builder. -/
structure TextParsed where
  report_year : Option String
  balance : TextBalance
  financial_results : TextFinRes
deriving DecidableEq, Repr

/-- A `_clean_number` output as stored into a cell. -/
def cellN : Option PyNum → CellVal
  | none => CellVal.null
  | some n => CellVal.num n

/-- The total row of one balance side: added only when the totals key is
present and its value truthy (`if active.get("total_current"):`). -/
def totalRow (totalLabel : String) (tc : Option (Option PyNum)) :
    List (String × List CellVal) :=
  match tc with
  | some v => if pyTruthy v then [(totalLabel, [cellN v])] else []
  | none => []

/-- Rows of one balance side in the transcript path: the total row is
added only when its value is truthy; each detail row is added with its
(possibly `None`) value. -/
def sideRows (totalLabel : String) : Option TextSide → List (String × List CellVal)
  | none => []
  | some side =>
    totalRow totalLabel side.total_current ++
      side.details.map (fun kv => (kv.1, [cellN kv.2]))

/-- One financial-results row in the transcript path: present exactly when
the inner `{"current": ...}` dict exists (a non-empty dict is truthy even
when the stored value is `None`). -/
def finRowOpt (lab : String) (o : Option (Option PyNum)) :
    List (String × List CellVal) :=
  match o with
  | some v => [(lab, [cellN v])]
  | none => []

/-- Financial-results rows in the transcript path, in the code's check
order (`revenue`, `net_profit`, `expenses`, `income_tax`). -/
def textFinRows (f : TextFinRes) : List (String × List CellVal) :=
  finRowOpt "Выручка" f.revenue ++
    (finRowOpt "Чистая прибыль (убыток)" f.net_profit ++
      (finRowOpt "Расходы" f.expenses ++
        finRowOpt "Налог на прибыль" f.income_tax))

/-- Whether any financial-results pattern matched (dict truthiness). -/
def textFinNonEmpty (f : TextFinRes) : Bool :=
  f.revenue.isSome || f.net_profit.isSome || f.income_tax.isSome || f.expenses.isSome

/-- The `multi_year_data` construction of the first `extract_from_pdf`
definition: built only when the text parser stored a balance side or a
financial-results entry; `years` is the single entry
`result.get("report_year", "N/A")`, which is the (possibly `None`) value of
the always-present `report_year` key. -/
def build_multi_year (tp : TextParsed) : Option MultiYearData :=
  if (tp.balance.active.isSome || tp.balance.passive.isSome) ||
      textFinNonEmpty tp.financial_results then
    some
      { years := [tp.report_year]
        balance := sideRows "АКТИВ (всего)" tp.balance.active ++
          sideRows "ПАССИВ (всего)" tp.balance.passive
        financial_results := textFinRows tp.financial_results }
  else none

/-! ## Checkers for the `multi_year_data` invariants -/

/-- Every value-sequence has length exactly `len(years)`. -/
def mydAligned (m : MultiYearData) : Bool :=
  (m.balance ++ m.financial_results).all (fun r => r.2.length = m.years.length)

/-- A cell is a number or an explicit null (never a raw string). -/
def cellIsNumOrNull : CellVal → Bool
  | CellVal.null => true
  | CellVal.num _ => true
  | CellVal.str _ => false

/-- Every cell is a number or null. -/
def mydNumeric (m : MultiYearData) : Bool :=
  (m.balance ++ m.financial_results).all (fun r => r.2.all cellIsNumOrNull)

/-- Some cell holds a non-null numeric value. -/
def mydHasNumeric (m : MultiYearData) : Bool :=
  (m.balance ++ m.financial_results).any (fun r =>
    r.2.any (fun c => match c with | CellVal.num _ => true | _ => false))

/-- Whether the input to `parse_accounting_xml` parsed at all. -/
def xmlParses : XmlInput → Bool
  | XmlInput.parseError _ => false
  | XmlInput.parsed _ => true

theorem triRowList_length {lab : String} {t : Option Triple}
    {r : String × List CellVal} (h : r ∈ triRowList lab t) : r.2.length = 3 := by
  cases t with
  | none => simp [triRowList] at h
  | some tr =>
    simp only [triRowList, List.mem_singleton] at h
    rw [h]
    simp [tripleCells]

theorem activeRows_length {oa : Option ActiveBlock}
    {r : String × List CellVal} (h : r ∈ activeRows oa) : r.2.length = 3 := by
  cases oa with
  | none => simp [activeRows] at h
  | some a =>
    rcases List.mem_cons.mp h with h | h
    · rw [h]; simp [tripleCells]
    · rcases List.mem_append.mp h with h | h
      · exact triRowList_length h
      · rcases List.mem_append.mp h with h | h
        · exact triRowList_length h
        · rcases List.mem_append.mp h with h | h
          · exact triRowList_length h
          · rcases List.mem_append.mp h with h | h
            · exact triRowList_length h
            · exact triRowList_length h

theorem passiveRows_length {op : Option PassiveBlock}
    {r : String × List CellVal} (h : r ∈ passiveRows op) : r.2.length = 3 := by
  cases op with
  | none => simp [passiveRows] at h
  | some p =>
    rcases List.mem_cons.mp h with h | h
    · rw [h]; simp [tripleCells]
    · rcases List.mem_append.mp h with h | h
      · exact triRowList_length h
      · rcases List.mem_append.mp h with h | h
        · exact triRowList_length h
        · rcases List.mem_append.mp h with h | h
          · exact triRowList_length h
          · exact triRowList_length h

theorem balanceRows_length {ob : Option BalansBlock}
    {r : String × List CellVal} (h : r ∈ balanceRows ob) : r.2.length = 3 := by
  cases ob with
  | none => simp [balanceRows] at h
  | some b =>
    rcases List.mem_append.mp h with h | h
    · exact activeRows_length h
    · exact passiveRows_length h

theorem pairRowList_length {lab : String} {p : Option Pair}
    {r : String × List CellVal} (h : r ∈ pairRowList lab p) : r.2.length = 2 := by
  cases p with
  | none => simp [pairRowList] at h
  | some pr =>
    simp only [pairRowList, List.mem_singleton] at h
    rw [h]
    simp [pairCells]

theorem finRows_length {f : Option FinRezBlock}
    {r : String × List CellVal} (h : r ∈ finRows f) : r.2.length = 2 := by
  cases f with
  | none => simp [finRows] at h
  | some fr =>
    rcases List.mem_append.mp h with h | h
    · exact pairRowList_length h
    · rcases List.mem_append.mp h with h | h
      · exact pairRowList_length h
      · rcases List.mem_append.mp h with h | h
        · exact pairRowList_length h
        · rcases List.mem_append.mp h with h | h
          · exact pairRowList_length h
          · rcases List.mem_append.mp h with h | h
            · exact pairRowList_length h
            · exact pairRowList_length h

theorem yearsOf_length (ry : Option String) :
    (yearsOf ry).length = 3 ∨ (yearsOf ry).length = 0 := by
  cases ry with
  | none => right; rfl
  | some y =>
    by_cases he : y = ""
    · right
      show (if y = "" then ([] : List (Option String)) else
        match pyIntOfString y with
        | some n => [some (toString n), some (toString (n - 1)), some (toString (n - 2))]
        | none => [some y, some "N/A", some "N/A"]).length = 0
      rw [if_pos he]
      rfl
    · left
      show (if y = "" then ([] : List (Option String)) else
        match pyIntOfString y with
        | some n => [some (toString n), some (toString (n - 1)), some (toString (n - 2))]
        | none => [some y, some "N/A", some "N/A"]).length = 3
      rw [if_neg he]
      rcases hp : pyIntOfString y with _ | n
      · rfl
      · rfl

theorem cellS_class (o : Option String) :
    cellS o = CellVal.null ∨ ∃ s, cellS o = CellVal.str s := by
  cases o with
  | none => left; rfl
  | some s => right; exact ⟨s, rfl⟩

theorem tripleCells_class {t : Triple} {c : CellVal} (h : c ∈ tripleCells t) :
    c = CellVal.null ∨ ∃ s, c = CellVal.str s := by
  simp only [tripleCells, List.mem_cons, List.mem_singleton] at h
  rcases h with h | h | h | h
  · rw [h]; exact cellS_class _
  · rw [h]; exact cellS_class _
  · rw [h]; exact cellS_class _
  · simp at h

theorem pairCells_class {p : Pair} {c : CellVal} (h : c ∈ pairCells p) :
    c = CellVal.null ∨ ∃ s, c = CellVal.str s := by
  simp only [pairCells, List.mem_cons, List.mem_singleton] at h
  rcases h with h | h | h
  · rw [h]; exact cellS_class _
  · rw [h]; exact cellS_class _
  · simp at h

theorem triRowList_cells {lab : String} {t : Option Triple}
    {r : String × List CellVal} (hr : r ∈ triRowList lab t)
    {c : CellVal} (hc : c ∈ r.2) :
    c = CellVal.null ∨ ∃ s, c = CellVal.str s := by
  cases t with
  | none => simp [triRowList] at hr
  | some tr =>
    simp only [triRowList, List.mem_singleton] at hr
    rw [hr] at hc
    exact tripleCells_class hc

theorem pairRowList_cells {lab : String} {p : Option Pair}
    {r : String × List CellVal} (hr : r ∈ pairRowList lab p)
    {c : CellVal} (hc : c ∈ r.2) :
    c = CellVal.null ∨ ∃ s, c = CellVal.str s := by
  cases p with
  | none => simp [pairRowList] at hr
  | some pr =>
    simp only [pairRowList, List.mem_singleton] at hr
    rw [hr] at hc
    exact pairCells_class hc

theorem balanceRows_cells {ob : Option BalansBlock}
    {r : String × List CellVal} (hr : r ∈ balanceRows ob)
    {c : CellVal} (hc : c ∈ r.2) :
    c = CellVal.null ∨ ∃ s, c = CellVal.str s := by
  cases ob with
  | none => simp [balanceRows] at hr
  | some b =>
    rcases List.mem_append.mp hr with hr | hr
    · cases ha : b.active with
      | none => rw [ha] at hr; simp [activeRows] at hr
      | some a =>
        rw [ha] at hr
        rcases List.mem_cons.mp hr with hr | hr
        · rw [hr] at hc; exact tripleCells_class hc
        · rcases List.mem_append.mp hr with hr | hr
          · exact triRowList_cells hr hc
          · rcases List.mem_append.mp hr with hr | hr
            · exact triRowList_cells hr hc
            · rcases List.mem_append.mp hr with hr | hr
              · exact triRowList_cells hr hc
              · rcases List.mem_append.mp hr with hr | hr
                · exact triRowList_cells hr hc
                · exact triRowList_cells hr hc
    · cases hp : b.passive with
      | none => rw [hp] at hr; simp [passiveRows] at hr
      | some p =>
        rw [hp] at hr
        rcases List.mem_cons.mp hr with hr | hr
        · rw [hr] at hc; exact tripleCells_class hc
        · rcases List.mem_append.mp hr with hr | hr
          · exact triRowList_cells hr hc
          · rcases List.mem_append.mp hr with hr | hr
            · exact triRowList_cells hr hc
            · rcases List.mem_append.mp hr with hr | hr
              · exact triRowList_cells hr hc
              · exact triRowList_cells hr hc

theorem finRows_cells {f : Option FinRezBlock}
    {r : String × List CellVal} (hr : r ∈ finRows f)
    {c : CellVal} (hc : c ∈ r.2) :
    c = CellVal.null ∨ ∃ s, c = CellVal.str s := by
  cases f with
  | none => simp [finRows] at hr
  | some fr =>
    rcases List.mem_append.mp hr with hr | hr
    · exact pairRowList_cells hr hc
    · rcases List.mem_append.mp hr with hr | hr
      · exact pairRowList_cells hr hc
      · rcases List.mem_append.mp hr with hr | hr
        · exact pairRowList_cells hr hc
        · rcases List.mem_append.mp hr with hr | hr
          · exact pairRowList_cells hr hc
          · rcases List.mem_append.mp hr with hr | hr
            · exact pairRowList_cells hr hc
            · exact pairRowList_cells hr hc

theorem totalRow_shape {lab : String} {tc : Option (Option PyNum)}
    {r : String × List CellVal} (h : r ∈ totalRow lab tc) :
    ∃ v : Option PyNum, r.2 = [cellN v] := by
  cases tc with
  | none => simp [totalRow] at h
  | some v =>
    simp only [totalRow] at h
    by_cases hv : pyTruthy v = true
    · rw [if_pos hv] at h
      simp only [List.mem_singleton] at h
      rw [h]
      exact ⟨v, rfl⟩
    · rw [if_neg hv] at h
      simp at h

theorem sideRows_shape {lab : String} {os : Option TextSide}
    {r : String × List CellVal} (h : r ∈ sideRows lab os) :
    ∃ v : Option PyNum, r.2 = [cellN v] := by
  cases os with
  | none => simp [sideRows] at h
  | some side =>
    rcases List.mem_append.mp h with h | h
    · exact totalRow_shape h
    · simp only [List.mem_map] at h
      obtain ⟨kv, _, hkv⟩ := h
      rw [← hkv]
      exact ⟨kv.2, rfl⟩

theorem finRowOpt_shape {lab : String} {o : Option (Option PyNum)}
    {r : String × List CellVal} (h : r ∈ finRowOpt lab o) :
    ∃ v : Option PyNum, r.2 = [cellN v] := by
  cases o with
  | none => simp [finRowOpt] at h
  | some v =>
    simp only [finRowOpt, List.mem_singleton] at h
    rw [h]
    exact ⟨v, rfl⟩

theorem textFinRows_shape {f : TextFinRes}
    {r : String × List CellVal} (h : r ∈ textFinRows f) :
    ∃ v : Option PyNum, r.2 = [cellN v] := by
  rcases List.mem_append.mp h with h | h
  · exact finRowOpt_shape h
  · rcases List.mem_append.mp h with h | h
    · exact finRowOpt_shape h
    · rcases List.mem_append.mp h with h | h
      · exact finRowOpt_shape h
      · exact finRowOpt_shape h

theorem cellN_class (v : Option PyNum) :
    cellN v = CellVal.null ∨ ∃ n, cellN v = CellVal.num n := by
  cases v with
  | none => left; rfl
  | some n => right; exact ⟨n, rfl⟩

theorem build_multi_year_eq {tp : TextParsed} {m : MultiYearData}
    (h : build_multi_year tp = some m) :
    m.years = [tp.report_year] ∧
    m.balance = sideRows "АКТИВ (всего)" tp.balance.active ++
      sideRows "ПАССИВ (всего)" tp.balance.passive ∧
    m.financial_results = textFinRows tp.financial_results := by
  unfold build_multi_year at h
  split at h
  · have hm := Option.some.inj h
    rw [← hm]
    exact ⟨rfl, rfl, rfl⟩
  · exact Option.noConfusion h

/-! ## `extract_from_xml`, the two `extract_from_pdf` definitions, and the
per-file dispatch of `download_and_parse_boh` -/

/-- Outcome of the generic element-dump XML fallback parser (the
`ET.parse`-based tail of `extract_from_xml`); its behaviour depends only on
the raw bytes, so it enters the model as data. -/
structure GenericResult where
  success : Bool
  text : String
deriving DecidableEq, Repr

/-- What `extract_from_xml` hands back: the specialised accounting result
or the generic fallback. -/
inductive XmlExtractOut
  | accounting (r : XmlResult)
  | generic (g : GenericResult)
deriving DecidableEq, Repr

/-- `extract_from_xml`: try the specialised accounting parser first and
return its result whenever it reports success; otherwise run the generic
fallback. -/
def extract_from_xml (i : XmlInput) (g : GenericResult) : XmlExtractOut :=
  if (parse_accounting_xml i).success then XmlExtractOut.accounting (parse_accounting_xml i)
  else XmlExtractOut.generic g

/-- A paginated (PDF) file as the second `extract_from_pdf` definition
observes it (with `PDF_LIB = "pdfplumber"`): the `%PDF` header check, the
UTF-8 readability used by the XML redirect, whether opening/extracting
raises (e.g. an encrypted file), and the per-page `extract_text()`
results. -/
structure PdfFile where
  headerIsPdf : Bool
  headerStr : String
  textReadable : Option String
  openException : Option String
  pages : List (Option String)
deriving DecidableEq, Repr

/-- The page separator inserted between extracted pages. -/
def pageSep : String := "\n\n=== НОВАЯ СТРАНИЦА ===\n\n"

/-- Join the truthy per-page texts with the page separator. -/
def joinPages (pages : List (Option String)) : String :=
  pageSep.intercalate (pages.filterMap (fun p => p.bind (fun tx => if tx = "" then none else some tx)))

/-- Result of the second `extract_from_pdf` definition. -/
inductive PdfExtractOut
  | xmlRedirect (o : XmlExtractOut)
  | direct (success : Bool) (text : String) (error : Option String)
deriving DecidableEq, Repr

/-- The second (and therefore effective — it shadows the first) definition
of `extract_from_pdf` at line 931: header check with XML redirect, then
page-by-page text extraction; it performs no encrypted/zero-page
diagnostic, and sets `success=True` whenever extraction does not raise —
including for a zero-page document, whose transcript is empty. -/
def extract_from_pdf (pdf : PdfFile) (xi : XmlInput) (g : GenericResult) : PdfExtractOut :=
  if pdf.headerIsPdf then
    match pdf.openException with
    | some e => PdfExtractOut.direct false "" (some e)
    | none => PdfExtractOut.direct true (joinPages pdf.pages) none
  else
    match pdf.textReadable with
    | some c =>
      if strContains c "<?xml" || (pyStripStr c).startsWith "<" then
        PdfExtractOut.xmlRedirect (extract_from_xml xi g)
      else PdfExtractOut.direct false "" (some ("Не PDF. Заголовок: " ++ pdf.headerStr))
    | none => PdfExtractOut.direct false "" (some ("Не PDF. Заголовок: " ++ pdf.headerStr))

/-- Outcome of the structural diagnostic block (lines 288–314) of the
*first* `extract_from_pdf` definition: `fail` is an immediate return before
any extraction engine runs; `proceed` continues into extraction (when the
diagnostic itself raised, its message is recorded and extraction still
runs). -/
inductive PdfDiag
  | fail (error : String)
  | proceed (diagError : Option String)
deriving DecidableEq, Repr

/-- The structural diagnostic of the first `extract_from_pdf` definition:
encrypted documents and zero-page documents fail immediately, each with its
own message, before either extraction engine is invoked. -/
def pdf_structural_diag (encrypted : Bool) (pages : Nat)
    (diagException : Option String) : PdfDiag :=
  match diagException with
  | some e => PdfDiag.proceed (some e)
  | none =>
    if encrypted then PdfDiag.fail "PDF защищен паролем или зашифрован"
    else if pages = 0 then PdfDiag.fail "PDF не содержит страниц"
    else PdfDiag.proceed none

/-- The no-text-layer diagnostic of the first `extract_from_pdf`
definition (when OCR support is absent). -/
def emptyTextDiag : String :=
  "Пустой текст. Вероятно PDF — скан без текстового слоя. Установите OCR: pip install pdf2image pytesseract"

/-! ## The Delegated-AI response handling (`analyze_pdf_with_gemini`) -/

/-- The `"```json"` fence marker, as a character list. -/
def sepJson : List Char := ['`', '`', '`', 'j', 's', 'o', 'n']

/-- The `"```"` fence marker, as a character list. -/
def sepFence : List Char := ['`', '`', '`']

/-- The fence-stripping normalisation applied to the model's response text
before `json.loads`: strip, then if `"```json"` occurs take
`split("```json")[1].split("```")[0].strip()`, else if `"```"` occurs take
`split("```")[1].split("```")[0].strip()`. -/
def strip_fences (resp : List Char) : List Char :=
  let t := pyStrip resp
  if (findSub sepJson t).isSome then
    pyStrip (beforeFirst sepFence (splitGet1 sepJson t))
  else if (findSub sepFence t).isSome then
    pyStrip (beforeFirst sepFence (splitGet1 sepFence t))
  else t

/-- A JSON value, for the boundary model of the external JSON parser. -/
inductive JVal
  | null
  | bool (b : Bool)
  | num (n : Int)
  | str (s : List Char)
deriving DecidableEq, Repr

/-- JSON whitespace. -/
def isJsonWs (c : Char) : Bool :=
  c = ' ' || c = '\t' || c = '\n' || c = '\r'

/-- Scan a JSON string body up to the closing quote (escape sequences are
outside the modelled fragment). -/
def scanJsonStr : List Char → Option (List Char × List Char)
  | [] => none
  | '"' :: r => some ([], r)
  | '\\' :: _ => none
  | c :: r => (scanJsonStr r).map (fun pr => (c :: pr.1, pr.2))

/-- Modelled from the spec: the external JSON parsing (`json.loads`) at the
Delegated-AI boundary — the spec requires the component to "strip fences
and reject (not crash on) malformed JSON".  Modelled on the scalar
fragment (`null`, booleans, integers, escape-free strings), which covers
every input the claims evaluate it on; composite or fractional payloads
are outside the fragment and map to `none`. -/
def json_loads_model (s : String) : Option JVal :=
  let rest_ok : List Char → Bool := fun r => r.dropWhile isJsonWs = []
  let l := s.data.dropWhile isJsonWs
  match l with
  | 'n' :: 'u' :: 'l' :: 'l' :: r => if rest_ok r then some JVal.null else none
  | 't' :: 'r' :: 'u' :: 'e' :: r => if rest_ok r then some (JVal.bool true) else none
  | 'f' :: 'a' :: 'l' :: 's' :: 'e' :: r => if rest_ok r then some (JVal.bool false) else none
  | '"' :: r =>
    match scanJsonStr r with
    | some pr => if rest_ok pr.2 then some (JVal.str pr.1) else none
    | none => none
  | '-' :: r =>
    if r.takeWhile Char.isDigit = [] then none
    else if rest_ok (r.dropWhile Char.isDigit) then
      some (JVal.num (-(digitsVal (r.takeWhile Char.isDigit) : Int)))
    else none
  | r =>
    if r.takeWhile Char.isDigit = [] then none
    else if rest_ok (r.dropWhile Char.isDigit) then
      some (JVal.num (digitsVal (r.takeWhile Char.isDigit) : Int))
    else none

/-- The Delegated-AI response parse: fence stripping followed by JSON
parsing. -/
def ai_parse (resp : String) : Option JVal :=
  json_loads_model (String.mk (strip_fences resp.data))

/-- A parsed file of `download_and_parse_boh`: either the XML path's
output or the Delegated-AI path's. -/
inductive ParsedFile
  | fromXml (o : XmlExtractOut)
  | fromAi (a : Option JVal)
deriving DecidableEq, Repr

/-- Python `str.lower()` on the (ASCII) link URLs the dispatch examines. -/
def pyLower (s : String) : String := String.mk (s.data.map Char.toLower)

/-- The per-file dispatch of `download_and_parse_boh`: a link whose
lower-cased `href` contains `".xml"` goes to `extract_from_xml`; every
other file is sent directly to `analyze_pdf_with_gemini` — no local PDF
strategy is attempted first. -/
def dispatch_file (href : String) (i : XmlInput) (g : GenericResult)
    (aiResp : String) : ParsedFile :=
  if strContains (pyLower href) ".xml" then ParsedFile.fromXml (extract_from_xml i g)
  else ParsedFile.fromAi (ai_parse aiResp)

/-! ## Claim theorems: the multi-year record invariants and the cascade -/

/-- A document with a report year and an income-statement block only:
`years` gets 3 labels while each `financial_results` row keeps 2 cells. -/
def cexDocC1 : Dokument :=
  { otchetGod := some "2020"
    balans := none
    finRez := some
      { revenue := some ⟨some "100", some "90"⟩
        expenses := none, otherIncome := none, otherExpenses := none
        incomeTax := none, netProfit := none } }

/-- Counterexample to **C1** as stated: on a parsed document carrying a
year and a revenue pair, `len(years) = 3` but the revenue sequence has
length 2, so not every value-sequence matches `len(years)`. -/
theorem multi_year_alignment_cex :
    (parse_accounting_xml (XmlInput.parsed (some cexDocC1))).multi_year_data.map mydAligned =
      some false := by decide

/-- **C1** (amended): in `parse_accounting_xml` records every balance
sequence has length exactly 3 and every financial-results sequence length
exactly 2 — positions are never omitted, absent observations keeping their
place — while `years` has length 3 (or 0 with no year label), so the
financial-results sequences do *not* match `len(years)`; on the
transcript path `years` and every sequence have length 1. -/
theorem multi_year_lengths (i : XmlInput) (tp : TextParsed) (m m' : MultiYearData)
    (hx : (parse_accounting_xml i).multi_year_data = some m)
    (ht : build_multi_year tp = some m') :
    ((∀ r ∈ m.balance, r.2.length = 3) ∧
      (∀ r ∈ m.financial_results, r.2.length = 2) ∧
      (m.years.length = 3 ∨ m.years.length = 0)) ∧
    (m'.years.length = 1 ∧
      (∀ r ∈ m'.balance, r.2.length = 1) ∧
      (∀ r ∈ m'.financial_results, r.2.length = 1)) := by
  constructor
  · cases i with
    | parseError e => exact Option.noConfusion hx
    | parsed od =>
      cases od with
      | none =>
        have hm := Option.some.inj hx
        rw [← hm]
        exact ⟨fun r h => by simp at h, fun r h => by simp at h, Or.inr rfl⟩
      | some d =>
        have hm := Option.some.inj hx
        rw [← hm]
        exact ⟨fun r h => balanceRows_length h, fun r h => finRows_length h,
          yearsOf_length d.otchetGod⟩
  · obtain ⟨hy, hb, hf⟩ := build_multi_year_eq ht
    refine ⟨by rw [hy]; rfl, ?_, ?_⟩
    · intro r h
      rw [hb] at h
      rcases List.mem_append.mp h with h | h
      · obtain ⟨v, hv⟩ := sideRows_shape h
        rw [hv]; rfl
      · obtain ⟨v, hv⟩ := sideRows_shape h
        rw [hv]; rfl
    · intro r h
      rw [hf] at h
      obtain ⟨v, hv⟩ := textFinRows_shape h
      rw [hv]; rfl

/-- Concrete text-parse output for witnessing the transcript path. -/
def alignWitnessTp : TextParsed :=
  { report_year := some "2020"
    balance := { active := none, passive := none }
    financial_results :=
      { revenue := some (some (PyNum.int 5))
        net_profit := none, income_tax := none, expenses := none } }

/-- Its built `multi_year_data`. -/
def alignWitnessM' : MultiYearData :=
  ⟨[some "2020"], [], [("Выручка", [CellVal.num (PyNum.int 5)])]⟩

/-- The empty record produced from a document without a `Документ` node. -/
def emptyMyd : MultiYearData := ⟨[], [], []⟩

/-- Witness for `multi_year_lengths` at concrete inputs. -/
theorem multi_year_lengths_witness :
    ((∀ r ∈ emptyMyd.balance, r.2.length = 3) ∧
      (∀ r ∈ emptyMyd.financial_results, r.2.length = 2) ∧
      (emptyMyd.years.length = 3 ∨ emptyMyd.years.length = 0)) ∧
    (alignWitnessM'.years.length = 1 ∧
      (∀ r ∈ alignWitnessM'.balance, r.2.length = 1) ∧
      (∀ r ∈ alignWitnessM'.financial_results, r.2.length = 1)) :=
  multi_year_lengths (XmlInput.parsed none) alignWitnessTp emptyMyd alignWitnessM'
    (by decide) (by decide)

/-- A balance document whose total carries the raw attribute string
`"100"`. -/
def cexDocC2 : Dokument :=
  { otchetGod := none
    balans := some
      { active := some
          { total := ⟨some "100", none, none⟩
            nonCurrentAssets := none, financialInvestments := none
            inventory := none, cash := none, intangibleAssets := none }
        passive := none }
    finRez := none }

/-- Counterexample to **C2** as stated: the structured-XML path stores the
raw attribute string `"100"` into the cell, so not every cell is a number
or null. -/
theorem multi_year_numeric_cex :
    (parse_accounting_xml (XmlInput.parsed (some cexDocC2))).multi_year_data.map mydNumeric =
      some false := by decide

/-- **C2** (amended): on the structured-XML path every cell of every
sequence under `multi_year_data` is an explicit null or the *raw attribute
string* (never normalised); only on the heuristic transcript path is every
cell a `_clean_number` output — a signed number or null, never a raw
string. -/
theorem multi_year_cell_classes (i : XmlInput) (tp : TextParsed) (m m' : MultiYearData)
    (hx : (parse_accounting_xml i).multi_year_data = some m)
    (ht : build_multi_year tp = some m') :
    (∀ r ∈ m.balance ++ m.financial_results, ∀ c ∈ r.2,
      c = CellVal.null ∨ ∃ s, c = CellVal.str s) ∧
    (∀ r ∈ m'.balance ++ m'.financial_results, ∀ c ∈ r.2,
      c = CellVal.null ∨ ∃ n, c = CellVal.num n) := by
  constructor
  · intro r hr c hc
    cases i with
    | parseError e => exact Option.noConfusion hx
    | parsed od =>
      cases od with
      | none =>
        have hm := Option.some.inj hx
        rw [← hm] at hr
        simp [emptyMyd] at hr
      | some d =>
        have hm := Option.some.inj hx
        rw [← hm] at hr
        rcases List.mem_append.mp hr with hr | hr
        · exact balanceRows_cells hr hc
        · exact finRows_cells hr hc
  · intro r hr c hc
    obtain ⟨hy, hb, hf⟩ := build_multi_year_eq ht
    have hsingle : ∀ v : Option PyNum, r.2 = [cellN v] →
        c = CellVal.null ∨ ∃ n, c = CellVal.num n := by
      intro v hv
      rw [hv] at hc
      simp only [List.mem_singleton] at hc
      rw [hc]
      exact cellN_class v
    rcases List.mem_append.mp hr with hr | hr
    · rw [hb] at hr
      rcases List.mem_append.mp hr with hr | hr
      · obtain ⟨v, hv⟩ := sideRows_shape hr
        exact hsingle v hv
      · obtain ⟨v, hv⟩ := sideRows_shape hr
        exact hsingle v hv
    · rw [hf] at hr
      obtain ⟨v, hv⟩ := textFinRows_shape hr
      exact hsingle v hv

/-- Witness for `multi_year_cell_classes` at concrete inputs. -/
theorem multi_year_cell_classes_witness :
    (∀ r ∈ emptyMyd.balance ++ emptyMyd.financial_results, ∀ c ∈ r.2,
      c = CellVal.null ∨ ∃ s, c = CellVal.str s) ∧
    (∀ r ∈ alignWitnessM'.balance ++ alignWitnessM'.financial_results, ∀ c ∈ r.2,
      c = CellVal.null ∨ ∃ n, c = CellVal.num n) :=
  multi_year_cell_classes (XmlInput.parsed none) alignWitnessTp emptyMyd alignWitnessM'
    (by decide) (by decide)

/-- Counterexample to **C3** as stated: a markup document without a
`Документ` node parses, gets `success=true`, yet its `multi_year_data`
holds no non-null numeric value (it is empty). -/
theorem success_nonempty_cex :
    (parse_accounting_xml (XmlInput.parsed none)).success = true ∧
    (parse_accounting_xml (XmlInput.parsed none)).multi_year_data.map mydHasNumeric =
      some false := by decide

/-- **C3** (amended): `success` only records that extraction completed —
`parse_accounting_xml` reports `success=true` exactly when the document
parses, whatever `multi_year_data` contains, and the effective
`extract_from_pdf` reports `success=true` whenever page extraction does
not raise, even for an empty transcript, producing no `multi_year_data`
key at all. -/
theorem success_means_parsed :
    (∀ i : XmlInput, (parse_accounting_xml i).success = xmlParses i) ∧
    (∀ (hs : String) (tr : Option String) (pages : List (Option String))
        (xi : XmlInput) (g : GenericResult),
      extract_from_pdf ⟨true, hs, tr, none, pages⟩ xi g =
        PdfExtractOut.direct true (joinPages pages) none) := by
  constructor
  · intro i
    cases i with
    | parseError e => rfl
    | parsed od => cases od <;> rfl
  · intro hs tr pages xi g
    rfl

/-- **C4** (amended): within `extract_from_xml` the Structured-Schema
result is the one returned whenever it succeeds (priority over the generic
fallback); but `download_and_parse_boh` routes every non-XML file straight
to the Delegated-AI extractor, unconditionally — local strategies are not
attempted first for PDFs. -/
theorem cascade_priority (i : XmlInput) (g : GenericResult) (href : String)
    (aiResp : String)
    (hs : (parse_accounting_xml i).success = true)
    (hx : strContains (pyLower href) ".xml" = false) :
    extract_from_xml i g = XmlExtractOut.accounting (parse_accounting_xml i) ∧
    dispatch_file href i g aiResp = ParsedFile.fromAi (ai_parse aiResp) := by
  constructor
  · unfold extract_from_xml
    rw [if_pos hs]
  · unfold dispatch_file
    rw [if_neg (by rw [hx]; exact Bool.false_ne_true)]

/-- A structured balance document carrying data, classified by filename as
a PDF. -/
def c4doc : Dokument :=
  { otchetGod := some "2021"
    balans := some
      { active := some
          { total := ⟨some "500", some "400", some "300"⟩
            nonCurrentAssets := none, financialInvestments := none
            inventory := none, cash := none, intangibleAssets := none }
        passive := none }
    finRez := none }

/-- Counterexample to **C4** as stated: a file on whose content the
structured-schema parser succeeds (with a data row) is dispatched to the
Delegated-AI extractor anyway, because its name is not `.xml` — the AI
strategy is not reserved for documents where local strategies yielded
nothing. -/
theorem cascade_priority_cex :
    (parse_accounting_xml (XmlInput.parsed (some c4doc))).success = true ∧
    (parse_accounting_xml (XmlInput.parsed (some c4doc))).multi_year_data.map
      (fun m => m.balance.length) = some 1 ∧
    dispatch_file "report_7707083893_1.pdf" (XmlInput.parsed (some c4doc)) ⟨false, ""⟩
      "null" = ParsedFile.fromAi (ai_parse "null") := by
  refine ⟨by decide, by decide, ?_⟩
  unfold dispatch_file
  rw [if_neg (by decide)]

/-- Witness for `cascade_priority` at concrete inputs. -/
theorem cascade_priority_witness :
    extract_from_xml (XmlInput.parsed (some c4doc)) ⟨false, ""⟩ =
      XmlExtractOut.accounting (parse_accounting_xml (XmlInput.parsed (some c4doc))) ∧
    dispatch_file "report_7707083893_2.pdf" (XmlInput.parsed (some c4doc)) ⟨false, ""⟩
      "true" = ParsedFile.fromAi (ai_parse "true") :=
  cascade_priority (XmlInput.parsed (some c4doc)) ⟨false, ""⟩ "report_7707083893_2.pdf"
    "true" (by decide) (by decide)

/-- **C6**: for a structured document with only a balance block (no
`ФинРез`) and a truthy (present, non-empty) year label — the code's
`if result["report_year"]:` guard — every balance row has exactly 3
positions, `financial_results` is empty, and the prior-year labels are
obtained by decrementing `int(year)`, with the `"N/A"` placeholder when
the label is not an integer. -/
theorem balance_only_shape (d : Dokument) (y : String)
    (h1 : d.finRez = none) (h2 : d.otchetGod = some y) (h3 : y ≠ "") :
    ∃ m, (parse_accounting_xml (XmlInput.parsed (some d))).multi_year_data = some m ∧
      (∀ r ∈ m.balance, r.2.length = 3) ∧
      m.financial_results = [] ∧
      (∀ n : Int, pyIntOfString y = some n →
        m.years = [some (toString n), some (toString (n - 1)), some (toString (n - 2))]) ∧
      (pyIntOfString y = none → m.years = [some y, some "N/A", some "N/A"]) := by
  refine ⟨⟨yearsOf d.otchetGod, balanceRows d.balans, finRows d.finRez⟩, rfl,
    fun r h => balanceRows_length h, by rw [h1]; rfl, ?_, ?_⟩
  · intro n hn
    rw [h2]
    show (if y = "" then ([] : List (Option String)) else
      match pyIntOfString y with
      | some n => [some (toString n), some (toString (n - 1)), some (toString (n - 2))]
      | none => [some y, some "N/A", some "N/A"]) = _
    rw [if_neg h3, hn]
  · intro hn
    rw [h2]
    show (if y = "" then ([] : List (Option String)) else
      match pyIntOfString y with
      | some n => [some (toString n), some (toString (n - 1)), some (toString (n - 2))]
      | none => [some y, some "N/A", some "N/A"]) = _
    rw [if_neg h3, hn]

/-- A synthetic balance-only document with year label `"2020"`. -/
def balanceOnlyDoc : Dokument :=
  { otchetGod := some "2020"
    balans := some
      { active := some
          { total := ⟨some "100", some "90", some "80"⟩
            nonCurrentAssets := none, financialInvestments := none
            inventory := none, cash := none, intangibleAssets := none }
        passive := none }
    finRez := none }

/-- Witness for `balance_only_shape` at a concrete document. -/
theorem balance_only_shape_witness :
    ∃ m, (parse_accounting_xml (XmlInput.parsed (some balanceOnlyDoc))).multi_year_data =
        some m ∧
      (∀ r ∈ m.balance, r.2.length = 3) ∧
      m.financial_results = [] ∧
      (∀ n : Int, pyIntOfString "2020" = some n →
        m.years = [some (toString n), some (toString (n - 1)), some (toString (n - 2))]) ∧
      (pyIntOfString "2020" = none → m.years = [some "2020", some "N/A", some "N/A"]) :=
  balance_only_shape balanceOnlyDoc "2020" rfl rfl (by decide)

/-- A zero-page, unencrypted, well-headed PDF. -/
def zeroPagePdf : PdfFile := ⟨true, "%PDF-1.4", none, none, []⟩

/-- **C8**: the first `extract_from_pdf` definition's structural diagnostic
does fail immediately and distinctly on encrypted and zero-page documents;
but that definition is shadowed by the second one, and the effective
`extract_from_pdf` runs no such diagnostic: a zero-page PDF comes back
`success=true` with an empty transcript and no error. -/
theorem pdf_diag_shadowed :
    extract_from_pdf zeroPagePdf (XmlInput.parseError "") ⟨false, ""⟩ =
      PdfExtractOut.direct true "" none ∧
    pdf_structural_diag true 5 none = PdfDiag.fail "PDF защищен паролем или зашифрован" ∧
    pdf_structural_diag false 0 none = PdfDiag.fail "PDF не содержит страниц" ∧
    ("PDF защищен паролем или зашифрован" ≠ "PDF не содержит страниц" ∧
      "PDF защищен паролем или зашифрован" ≠ emptyTextDiag ∧
      "PDF не содержит страниц" ≠ emptyTextDiag) := by
  exact ⟨rfl, rfl, rfl, by decide⟩

/-! ## The Heuristic Pattern Extractor's year search (`parse_accounting_from_text`)

Models of the two `re.search` calls that set `report_year`, with Python's
`re.IGNORECASE` restricted to the ASCII and Cyrillic letters the patterns
use. -/

/-- Case folding for the pattern letters (Cyrillic А–Я plus ASCII). -/
def ruLower (c : Char) : Char :=
  if 0x410 ≤ c.toNat ∧ c.toNat ≤ 0x42F then Char.ofNat (c.toNat + 0x20)
  else c.toLower

/-- Attempt the pattern `за\s+(\d{4})\s*(год|г\.)?` at the head of `l`;
returns (group 1, group 2) on a match.  The optional suffix group can only
start where the greedy `\s*` ends, since its first letter is not
whitespace. -/
def tryMatch1 (l : List Char) : Option (List Char × Option (List Char)) :=
  match l with
  | c1 :: c2 :: rest =>
    if ruLower c1 = 'з' ∧ ruLower c2 = 'а' then
      if rest.takeWhile isPyWs = [] then none
      else
        match rest.dropWhile isPyWs with
        | d1 :: d2 :: d3 :: d4 :: r2 =>
          if d1.isDigit ∧ d2.isDigit ∧ d3.isDigit ∧ d4.isDigit then
            let r2s := r2.dropWhile isPyWs
            let g2 : Option (List Char) :=
              match r2s with
              | a :: b :: c :: _ =>
                if ruLower a = 'г' ∧ ruLower b = 'о' ∧ ruLower c = 'д' then some [a, b, c]
                else if ruLower a = 'г' ∧ b = '.' then some [a, b]
                else none
              | [a, b] => if ruLower a = 'г' ∧ b = '.' then some [a, b] else none
              | _ => none
            some ([d1, d2, d3, d4], g2)
          else none
        | _ => none
    else none
  | _ => none

/-- Leftmost `re.search` of the first year pattern. -/
def searchYear1 : List Char → Option (List Char × Option (List Char))
  | [] => none
  | c :: rest =>
    match tryMatch1 (c :: rest) with
    | some r => some r
    | none => searchYear1 rest

/-- Case-insensitive literal match at the head of `l`. -/
def matchCI : List Char → List Char → Bool
  | [], _ => true
  | _ :: _, [] => false
  | p :: ps, c :: cs => (ruLower c == p) && matchCI ps cs

/-- Four leading digits, as `\d{4}` expects. -/
def fourDigits : List Char → Option (List Char)
  | d1 :: d2 :: d3 :: d4 :: _ =>
    if d1.isDigit ∧ d2.isDigit ∧ d3.isDigit ∧ d4.isDigit then some [d1, d2, d3, d4]
    else none
  | _ => none

/-- The lazy gap `.{0,30}?` followed by `(\d{4})`: try the digits first,
then consume one non-newline character while fuel remains. -/
def gapDigits : Nat → List Char → Option (List Char)
  | fuel, l =>
    match fourDigits l with
    | some g => some g
    | none =>
      match fuel, l with
      | f + 1, c :: r => if c = '\n' then none else gapDigits f r
      | _, _ => none

/-- Attempt the fallback pattern `(баланс|отчет).{0,30}?(\d{4})` at the
head of `l`; returns group 2 (the digits). -/
def tryMatch2 (l : List Char) : Option (List Char) :=
  if matchCI "баланс".data l then gapDigits 30 (l.drop 6)
  else if matchCI "отчет".data l then gapDigits 30 (l.drop 5)
  else none

/-- Leftmost `re.search` of the fallback year pattern. -/
def searchYear2 : List Char → Option (List Char)
  | [] => none
  | c :: rest =>
    match tryMatch2 (c :: rest) with
    | some r => some r
    | none => searchYear2 rest

/-- The `report_year` computation of `parse_accounting_from_text`: when
the first pattern matches, the code stores
`group(1) if len(groups()) == 1 else group(2)` — and the first pattern has
two groups, so group 2 (the `год`/`г.` suffix, possibly absent) is stored;
only when the first pattern finds nothing is the fallback searched, whose
group 2 holds the digits. -/
def report_year_of_text (txt : String) : Option String :=
  match searchYear1 txt.data with
  | some (_, g2) => g2.map String.mk
  | none => (searchYear2 txt.data).map String.mk

/-- **C7**: on a transcript with an explicit "за 2020 год" phrase the code
stores the word "год" — not the 4-digit token — as `report_year` (and
`None` when the phrase has no suffix); the 4-digit token is only produced
by the fallback search near "баланс"/"отчет" when no "за <year>" phrase
exists.  This contradicts the claim, which expects "2020". -/
theorem report_year_group_slip :
    report_year_of_text "Бухгалтерский баланс за 2020 год" = some "год" ∧
    report_year_of_text "Бухгалтерский баланс за 2020" = none ∧
    report_year_of_text "Бухгалтерский баланс 2020" = some "2020" ∧
    ("год" : String) ≠ "2020" := by decide

/-! ## Fence-invariance of the Delegated-AI response handling -/

theorem leadsWith_append_self (s r : List Char) : leadsWith s (s ++ r) = true := by
  induction s with
  | nil => rfl
  | cons a s ih => simp [leadsWith, ih]

theorem findSub_of_leads (pat l : List Char) (h : leadsWith pat l = true) :
    findSub pat l = some 0 := by
  cases l with
  | nil => simp [findSub, h]
  | cons c rest => simp [findSub, h]

theorem findSub_cons_not (pat : List Char) (c : Char) (rest : List Char)
    (h : leadsWith pat (c :: rest) = false) :
    findSub pat (c :: rest) = (findSub pat rest).map (· + 1) := by
  simp [findSub, h]

theorem findSub_none_head (a : Char) (s l : List Char) (h : a ∉ l) :
    findSub (a :: s) l = none := by
  induction l with
  | nil => simp [findSub, leadsWith]
  | cons c r ih =>
    have hc : (a == c) = false := by
      rw [beq_eq_false_iff_ne]
      intro he
      exact h (by rw [he]; exact List.mem_cons_self c r)
    rw [findSub_cons_not _ _ _ (by simp [leadsWith, hc])]
    rw [ih (fun hm => h (List.mem_cons_of_mem c hm))]
    rfl

theorem findSub_json_mid (x : List Char) :
    ('`' : Char) ∉ x → findSub sepJson (x ++ '\n' :: sepFence) = none := by
  induction x with
  | nil => intro _; decide
  | cons c x ih =>
    intro hx
    have hc : c ≠ '`' := fun he => hx (by rw [← he]; exact List.mem_cons_self c x)
    have hbeq : (('`' : Char) == c) = false := by
      rw [beq_eq_false_iff_ne]
      exact fun he => hc he.symm
    have hl : leadsWith sepJson (c :: (x ++ '\n' :: sepFence)) = false := by
      simp [sepJson, leadsWith, hbeq]
    rw [List.cons_append, findSub_cons_not _ _ _ hl,
      ih (fun hm => hx (List.mem_cons_of_mem c hm))]
    rfl

theorem findSub_fence_at_end (x : List Char) :
    ('`' : Char) ∉ x → findSub sepFence (x ++ sepFence) = some x.length := by
  induction x with
  | nil => intro _; decide
  | cons c x ih =>
    intro hx
    have hc : c ≠ '`' := fun he => hx (by rw [← he]; exact List.mem_cons_self c x)
    have hbeq : (('`' : Char) == c) = false := by
      rw [beq_eq_false_iff_ne]
      exact fun he => hc he.symm
    have hl : leadsWith sepFence (c :: (x ++ sepFence)) = false := by
      simp [sepFence, leadsWith, hbeq]
    rw [List.cons_append, findSub_cons_not _ _ _ hl,
      ih (fun hm => hx (List.mem_cons_of_mem c hm))]
    rfl

theorem getLast?_cons_ne (c : Char) (l : List Char) (h : l ≠ []) :
    (c :: l).getLast? = l.getLast? := by
  rw [show (c :: l) = [c] ++ l from rfl]
  exact List.getLast?_append_of_ne_nil [c] h

theorem stripChars_cons_ws (p : Char → Bool) (c : Char) (l : List Char)
    (h : p c = true) : stripChars p (c :: l) = stripChars p l := by
  unfold stripChars
  rw [List.dropWhile_cons, if_pos h]

theorem stripChars_concat_ws (p : Char → Bool) (c : Char) (l : List Char)
    (h : p c = true) : stripChars p (l ++ [c]) = stripChars p l := by
  unfold stripChars
  rw [List.dropWhile_append]
  by_cases he : (l.dropWhile p).isEmpty = true
  · rw [if_pos he]
    have h2 : l.dropWhile p = [] := by
      cases hx : l.dropWhile p with
      | nil => rfl
      | cons a as => rw [hx] at he; exact absurd he (by simp [List.isEmpty])
    rw [h2]
    simp [List.dropWhile_cons, h, List.dropWhile_nil]
  · rw [if_neg he]
    simp only [List.reverse_append, List.reverse_singleton, List.singleton_append]
    rw [List.dropWhile_cons, if_pos h]

theorem mem_stripChars {p : Char → Bool} {l : List Char} {c : Char}
    (h : c ∈ stripChars p l) : c ∈ l := by
  unfold stripChars at h
  rw [List.mem_reverse] at h
  have h2 := (List.dropWhile_suffix p).sublist.subset h
  rw [List.mem_reverse] at h2
  exact (List.dropWhile_suffix p).sublist.subset h2

theorem strip_fences_plain (j : List Char) (hj : ('`' : Char) ∉ j) :
    strip_fences j = pyStrip j := by
  have h1 : findSub sepJson (pyStrip j) = none :=
    findSub_none_head '`' _ _ (fun hm => hj (mem_stripChars hm))
  have h2 : findSub sepFence (pyStrip j) = none :=
    findSub_none_head '`' _ _ (fun hm => hj (mem_stripChars hm))
  simp only [strip_fences]
  rw [h1, h2]
  rfl

theorem pyStrip_nl_wrap (j : List Char) :
    pyStrip (('\n' :: j) ++ ['\n']) = pyStrip j := by
  rw [List.cons_append]
  show stripChars isPyWs ('\n' :: (j ++ ['\n'])) = stripChars isPyWs j
  rw [stripChars_cons_ws isPyWs '\n' _ (by decide),
    stripChars_concat_ws isPyWs '\n' _ (by decide)]

theorem wrap_mid_no_tick (j : List Char) (hj : ('`' : Char) ∉ j) :
    ('`' : Char) ∉ '\n' :: j := by
  intro hm
  rcases List.mem_cons.mp hm with hm | hm
  · exact absurd hm (by decide)
  · exact hj hm

theorem wrap_midnl_no_tick (j : List Char) (hj : ('`' : Char) ∉ j) :
    ('`' : Char) ∉ ('\n' :: j) ++ ['\n'] := by
  intro hm
  rcases List.mem_append.mp hm with hm | hm
  · exact wrap_mid_no_tick j hj hm
  · rcases List.mem_singleton.mp hm with hm
    exact absurd hm (by decide)

theorem wrapR_assoc (j : List Char) :
    '\n' :: (j ++ '\n' :: sepFence) = (('\n' :: j) ++ ['\n']) ++ sepFence := by
  simp

theorem wrapR_strip_self (j : List Char) :
    pyStrip (sepJson ++ '\n' :: (j ++ '\n' :: sepFence)) =
      sepJson ++ '\n' :: (j ++ '\n' :: sepFence) ∧
    pyStrip (sepFence ++ '\n' :: (j ++ '\n' :: sepFence)) =
      sepFence ++ '\n' :: (j ++ '\n' :: sepFence) := by
  have hlastR : ('\n' :: (j ++ '\n' :: sepFence)).getLast? = some '`' := by
    rw [getLast?_cons_ne '\n' _ (by simp)]
    rw [List.getLast?_append_of_ne_nil j (by simp [sepFence])]
    decide
  constructor
  · apply stripChars_eq_self_of
    · intro c hc
      have hh : (sepJson ++ '\n' :: (j ++ '\n' :: sepFence)).head? = some '`' := rfl
      rw [hh] at hc
      cases hc
      decide
    · intro c hc
      rw [List.getLast?_append_of_ne_nil sepJson (by simp), hlastR] at hc
      cases hc
      decide
  · apply stripChars_eq_self_of
    · intro c hc
      have hh : (sepFence ++ '\n' :: (j ++ '\n' :: sepFence)).head? = some '`' := rfl
      rw [hh] at hc
      cases hc
      decide
    · intro c hc
      rw [List.getLast?_append_of_ne_nil sepFence (by simp), hlastR] at hc
      cases hc
      decide

theorem strip_fences_wrapJson (j : List Char) (hj : ('`' : Char) ∉ j) :
    strip_fences (sepJson ++ '\n' :: (j ++ '\n' :: sepFence)) = pyStrip j := by
  have hstrip := (wrapR_strip_self j).1
  have hb1 : findSub sepJson (sepJson ++ '\n' :: (j ++ '\n' :: sepFence)) = some 0 :=
    findSub_of_leads _ _ (leadsWith_append_self _ _)
  have hafter : afterFirst sepJson (sepJson ++ '\n' :: (j ++ '\n' :: sepFence)) =
      '\n' :: (j ++ '\n' :: sepFence) := by
    unfold afterFirst
    rw [hb1]
    show (sepJson ++ '\n' :: (j ++ '\n' :: sepFence)).drop (0 + sepJson.length) =
      '\n' :: (j ++ '\n' :: sepFence)
    rw [Nat.zero_add]
    exact List.drop_left _ _
  have hmid : findSub sepJson ('\n' :: (j ++ '\n' :: sepFence)) = none := by
    rw [show '\n' :: (j ++ '\n' :: sepFence) = ('\n' :: j) ++ '\n' :: sepFence by simp]
    exact findSub_json_mid ('\n' :: j) (wrap_mid_no_tick j hj)
  have hbefore1 : beforeFirst sepJson ('\n' :: (j ++ '\n' :: sepFence)) =
      '\n' :: (j ++ '\n' :: sepFence) := by
    unfold beforeFirst
    rw [hmid]
  have hfence : findSub sepFence ('\n' :: (j ++ '\n' :: sepFence)) =
      some (('\n' :: j) ++ ['\n']).length := by
    rw [wrapR_assoc]
    exact findSub_fence_at_end _ (wrap_midnl_no_tick j hj)
  have hbefore2 : beforeFirst sepFence ('\n' :: (j ++ '\n' :: sepFence)) =
      ('\n' :: j) ++ ['\n'] := by
    unfold beforeFirst
    rw [hfence]
    show ('\n' :: (j ++ '\n' :: sepFence)).take (('\n' :: j) ++ ['\n']).length =
      ('\n' :: j) ++ ['\n']
    rw [wrapR_assoc]
    exact List.take_left _ _
  simp only [strip_fences, hstrip, hb1, Option.isSome_some, if_true]
  unfold splitGet1
  rw [hafter, hbefore1, hbefore2, pyStrip_nl_wrap]

theorem strip_fences_wrapPlain (j : List Char) (hj : ('`' : Char) ∉ j) :
    strip_fences (sepFence ++ '\n' :: (j ++ '\n' :: sepFence)) = pyStrip j := by
  have hstrip := (wrapR_strip_self j).2
  have hmid : findSub sepJson ('\n' :: (j ++ '\n' :: sepFence)) = none := by
    rw [show '\n' :: (j ++ '\n' :: sepFence) = ('\n' :: j) ++ '\n' :: sepFence by simp]
    exact findSub_json_mid ('\n' :: j) (wrap_mid_no_tick j hj)
  have hjn : (('j' : Char) == '\n') = false := by decide
  have htn : (('`' : Char) == '\n') = false := by decide
  have hnojson : findSub sepJson (sepFence ++ '\n' :: (j ++ '\n' :: sepFence)) = none := by
    rw [show sepFence ++ '\n' :: (j ++ '\n' :: sepFence) =
      '`' :: '`' :: '`' :: '\n' :: (j ++ '\n' :: sepFence) from rfl]
    rw [findSub_cons_not _ _ _ (by simp [sepJson, leadsWith, hjn])]
    rw [findSub_cons_not _ _ _ (by simp [sepJson, leadsWith, htn])]
    rw [findSub_cons_not _ _ _ (by simp [sepJson, leadsWith, htn])]
    rw [show ('\n' :: (j ++ '\n' :: sepFence)) = ('\n' :: j) ++ '\n' :: sepFence by simp]
    rw [findSub_json_mid ('\n' :: j) (wrap_mid_no_tick j hj)]
    rfl
  have hb2 : findSub sepFence (sepFence ++ '\n' :: (j ++ '\n' :: sepFence)) = some 0 :=
    findSub_of_leads _ _ (leadsWith_append_self _ _)
  have hafter : afterFirst sepFence (sepFence ++ '\n' :: (j ++ '\n' :: sepFence)) =
      '\n' :: (j ++ '\n' :: sepFence) := by
    unfold afterFirst
    rw [hb2]
    show (sepFence ++ '\n' :: (j ++ '\n' :: sepFence)).drop (0 + sepFence.length) =
      '\n' :: (j ++ '\n' :: sepFence)
    rw [Nat.zero_add]
    exact List.drop_left _ _
  have hfence : findSub sepFence ('\n' :: (j ++ '\n' :: sepFence)) =
      some (('\n' :: j) ++ ['\n']).length := by
    rw [wrapR_assoc]
    exact findSub_fence_at_end _ (wrap_midnl_no_tick j hj)
  have hbefore1 : beforeFirst sepFence ('\n' :: (j ++ '\n' :: sepFence)) =
      ('\n' :: j) ++ ['\n'] := by
    unfold beforeFirst
    rw [hfence]
    show ('\n' :: (j ++ '\n' :: sepFence)).take (('\n' :: j) ++ ['\n']).length =
      ('\n' :: j) ++ ['\n']
    rw [wrapR_assoc]
    exact List.take_left _ _
  have hnofence2 : findSub sepFence (('\n' :: j) ++ ['\n']) = none :=
    findSub_none_head '`' _ _ (wrap_midnl_no_tick j hj)
  have hbefore2 : beforeFirst sepFence (('\n' :: j) ++ ['\n']) = ('\n' :: j) ++ ['\n'] := by
    unfold beforeFirst
    rw [hnofence2]
  simp only [strip_fences, hstrip, hnojson, Option.isSome_none, Bool.false_eq_true,
    if_false, hb2, Option.isSome_some, if_true]
  unfold splitGet1
  rw [hafter, hbefore1, hbefore2, pyStrip_nl_wrap]

/-- **C9** (amended): for every JSON payload free of backticks (hence of
the `"```"` fence marker), a model response that wraps the payload in
markdown code fences — with or without the `json` language tag — is
stripped to exactly the same text, and therefore parses to exactly the
same result, as the unwrapped response. -/
theorem fence_invariance (j : String) (hj : ('`' : Char) ∉ j.data) :
    ai_parse ("```json\n" ++ j ++ "\n```") = ai_parse j ∧
    ai_parse ("```\n" ++ j ++ "\n```") = ai_parse j := by
  have hd1 : ("```json\n" ++ j ++ "\n```").data =
      sepJson ++ '\n' :: (j.data ++ '\n' :: sepFence) := by
    show ("```json\n".data ++ j.data) ++ "\n```".data = _
    simp [sepJson, sepFence]
  have hd2 : ("```\n" ++ j ++ "\n```").data =
      sepFence ++ '\n' :: (j.data ++ '\n' :: sepFence) := by
    show ("```\n".data ++ j.data) ++ "\n```".data = _
    simp [sepFence]
  constructor
  · show json_loads_model (String.mk (strip_fences ("```json\n" ++ j ++ "\n```").data)) =
      json_loads_model (String.mk (strip_fences j.data))
    rw [hd1, strip_fences_wrapJson j.data hj, strip_fences_plain j.data hj]
  · show json_loads_model (String.mk (strip_fences ("```\n" ++ j ++ "\n```").data)) =
      json_loads_model (String.mk (strip_fences j.data))
    rw [hd2, strip_fences_wrapPlain j.data hj, strip_fences_plain j.data hj]

/-- Witness for `fence_invariance` at a concrete backtick-free payload. -/
theorem fence_invariance_witness :
    ai_parse ("```json\n" ++ "-42" ++ "\n```") = ai_parse "-42" ∧
    ai_parse ("```\n" ++ "-42" ++ "\n```") = ai_parse "-42" :=
  fence_invariance "-42" (by decide)

/-- Counterexample to **C9** as stated: the valid JSON payload
`"a``` 5 ```b"` (a JSON string containing fence markers) parses to the
number 5 when the response is unwrapped — the split grabs the text between
the inner fences — but fails to parse when the same payload arrives
wrapped in `"```json"` fences, so wrapping is not invariant for every
payload. -/
theorem fence_invariance_cex :
    ai_parse "\"a``` 5 ```b\"" = some (JVal.num 5) ∧
    ai_parse "```json\n\"a``` 5 ```b\"\n```" = none := by decide
